import Mathlib

/-!
Verification of the gitlabvulnreceiver repository against its natural-language
specification.  The Go sources are shallowly embedded below: pure functions
become Lean functions, the vulnerability state store becomes explicit state
passing over an association-list model of Go's `map[string]VulnerabilityState`,
time becomes discrete seconds, and the remote status endpoint becomes an
oracle `Nat -> PollOutcome` giving the outcome of the n-th status fetch.
-/

namespace GVR

/-! Section: SHA-256 (crypto/sha256 as used by ComputeVersionHash / generateVulnID)

A complete executable SHA-256 over byte lists, mirroring the standard
algorithm invoked by `sha256.New()` / `hash.Sum` in internal/state/state.go
and receiver.go. -/

namespace SHA256

def w32 (n : Nat) : Nat := n % 4294967296

def rotr (n x : Nat) : Nat := w32 ((x >>> n) ||| (x <<< (32 - n)))

def bigS0 (x : Nat) : Nat := (rotr 2 x) ^^^ (rotr 13 x) ^^^ (rotr 22 x)

def bigS1 (x : Nat) : Nat := (rotr 6 x) ^^^ (rotr 11 x) ^^^ (rotr 25 x)

def smallS0 (x : Nat) : Nat := (rotr 7 x) ^^^ (rotr 18 x) ^^^ (x >>> 3)

def smallS1 (x : Nat) : Nat := (rotr 17 x) ^^^ (rotr 19 x) ^^^ (x >>> 10)

def chF (x y z : Nat) : Nat := (x &&& y) ^^^ ((x ^^^ 4294967295) &&& z)

def majF (x y z : Nat) : Nat := (x &&& y) ^^^ (x &&& z) ^^^ (y &&& z)

/-- The 64 SHA-256 round constants of FIPS 180-4, written in decimal. -/
def K : List Nat :=
  [1116352408, 1899447441, 3049323471, 3921009573, 961987163,
   1508970993, 2453635748, 2870763221, 3624381080, 310598401,
   607225278, 1426881987, 1925078388, 2162078206, 2614888103,
   3248222580, 3835390401, 4022224774, 264347078, 604807628,
   770255983, 1249150122, 1555081692, 1996064986, 2554220882,
   2821834349, 2952996808, 3210313671, 3336571891, 3584528711,
   113926993, 338241895, 666307205, 773529912, 1294757372,
   1396182291, 1695183700, 1986661051, 2177026350, 2456956037,
   2730485921, 2820302411, 3259730800, 3345764771, 3516065817,
   3600352804, 4094571909, 275423344, 430227734, 506948616,
   659060556, 883997877, 958139571, 1322822218, 1537002063,
   1747873779, 1955562222, 2024104815, 2227730452, 2361852424,
   2428436474, 2756734187, 3204031479, 3329325298]

/-- The eight SHA-256 initial hash words of FIPS 180-4, in decimal. -/
def H0 : List Nat :=
  [1779033703, 3144134277, 1013904242, 2773480762, 1359893119,
   2600822924, 528734635, 1541459225]

/-- Big-endian byte rendering of a value in `n` bytes. -/
def beBytes : Nat → Nat → List Nat
  | 0, _ => []
  | n + 1, v => beBytes n (v >>> 8) ++ [v &&& 255]

/-- SHA-256 padding: append 0x80, zero padding to 56 mod 64, then the
64-bit big-endian bit length. -/
def pad (msg : List Nat) : List Nat :=
  let len := msg.length
  let zeros := (64 + 56 - ((len + 1) % 64)) % 64
  msg ++ 128 :: List.replicate zeros 0 ++ beBytes 8 (8 * len)

/-- Group a byte list into big-endian 32-bit words. -/
def words : List Nat → List Nat
  | b0 :: b1 :: b2 :: b3 :: rest =>
      (((b0 * 256 + b1) * 256 + b2) * 256 + b3) :: words rest
  | _ => []

/-- Message-schedule extension; `ws` holds the words produced so far in
reverse order, `n` counts the words still to produce. -/
def schedGo : List Nat → Nat → List Nat
  | ws, 0 => ws
  | ws, n + 1 =>
      let w2 := ws.getD 1 0
      let w7 := ws.getD 6 0
      let w15 := ws.getD 14 0
      let w16 := ws.getD 15 0
      schedGo (w32 (smallS1 w2 + w7 + smallS0 w15 + w16) :: ws) n

def schedule (block : List Nat) : List Nat :=
  (schedGo (words block).reverse 48).reverse

structure Regs where
  a : Nat
  b : Nat
  c : Nat
  d : Nat
  e : Nat
  f : Nat
  g : Nat
  h : Nat

def round (r : Regs) (kw : Nat × Nat) : Regs :=
  let t1 := w32 (r.h + bigS1 r.e + chF r.e r.f r.g + kw.1 + kw.2)
  let t2 := w32 (bigS0 r.a + majF r.a r.b r.c)
  ⟨w32 (t1 + t2), r.a, r.b, r.c, w32 (r.d + t1), r.e, r.f, r.g⟩

def compress (st : List Nat) (block : List Nat) : List Nat :=
  let ws := schedule block
  let r0 : Regs := ⟨st.getD 0 0, st.getD 1 0, st.getD 2 0, st.getD 3 0,
                    st.getD 4 0, st.getD 5 0, st.getD 6 0, st.getD 7 0⟩
  let r := (K.zip ws).foldl round r0
  [w32 (st.getD 0 0 + r.a), w32 (st.getD 1 0 + r.b),
   w32 (st.getD 2 0 + r.c), w32 (st.getD 3 0 + r.d),
   w32 (st.getD 4 0 + r.e), w32 (st.getD 5 0 + r.f),
   w32 (st.getD 6 0 + r.g), w32 (st.getD 7 0 + r.h)]

/-- Split a padded message into `n` blocks of 64 bytes. -/
def blocksGo : List Nat → Nat → List (List Nat)
  | _, 0 => []
  | bytes, n + 1 => bytes.take 64 :: blocksGo (bytes.drop 64) n

/-- SHA-256 digest (32 bytes) of a byte list. -/
def sha256 (msg : List Nat) : List Nat :=
  let padded := pad msg
  let bs := blocksGo padded (padded.length / 64)
  ((bs.foldl compress H0).map (beBytes 4)).flatten

/-- Lowercase hex digit for a value below 16 (48 is the code of the digit
zero, 97 that of the letter a). -/
def hexDigit (n : Nat) : Char :=
  if n < 10 then Char.ofNat (48 + n) else Char.ofNat (87 + n)

def hexByte (b : Nat) : List Char :=
  [hexDigit (b / 16), hexDigit (b % 16)]

/-- UTF-8 encoding of a character (Go strings are UTF-8 byte sequences). -/
def utf8Char (c : Char) : List Nat :=
  let n := c.toNat
  if n < 128 then [n]
  else if n < 2048 then [192 ||| (n >>> 6), 128 ||| (n &&& 63)]
  else if n < 65536 then
    [224 ||| (n >>> 12), 128 ||| ((n >>> 6) &&& 63), 128 ||| (n &&& 63)]
  else
    [240 ||| (n >>> 18), 128 ||| ((n >>> 12) &&& 63),
     128 ||| ((n >>> 6) &&& 63), 128 ||| (n &&& 63)]

def utf8 (s : String) : List Nat := (s.data.map utf8Char).flatten

/-- Model of `hex.EncodeToString(hash.Sum(nil))` for the SHA-256 of a string. -/
def sha256hex (s : String) : String := String.mk ((sha256 (utf8 s)).map hexByte).flatten

end SHA256

/-! Section: data model shared by the store and its codec

`Record` models Go's `map[string]string` with its zero-value semantics:
`record["X"]` yields `""` when the key is absent, so a record is a total
function from field name to value.  The store's map
`map[string]VulnerabilityState` is modelled as an association list with
Go-map lookup/overwrite semantics (`getEntry` / `setEntry`); a Go map never
holds two bindings of one key, which appears below as a `Nodup` hypothesis
where it matters. -/

def Record : Type := String → String

structure VulnerabilityState where
  last_seen_hash : String
  last_seen_at : String
  deriving DecidableEq, Repr

abbrev StateMap := List (String × VulnerabilityState)

/-- Go map read: first (only) binding of the key, if any. -/
def getEntry : StateMap → String → Option VulnerabilityState
  | [], _ => none
  | (k, v) :: rest, key => if k = key then some v else getEntry rest key

/-- Go map write: overwrite the binding of the key, or add one. -/
def setEntry : StateMap → String → VulnerabilityState → StateMap
  | [], key, v => [(key, v)]
  | (k, v') :: rest, key, v =>
      if k = key then (key, v) :: rest else (k, v') :: setEntry rest key v

/-! Section: encoding/json codec for the state map

state.go persists the map with `json.Marshal` and reads it back with
`json.Unmarshal`.  The codec below models that pair for this one Go type: a
single JSON object whose keys are the map keys and whose values are objects
with the two string fields `last_seen_hash` and `last_seen_at`
(`time.Time` marshals to its RFC3339 string, which the embedding carries as
an opaque string).  String escaping covers the backslash and the quote, the
two characters the decoder must be able to distinguish from structure; the
parser accepts exactly the documents the encoder emits.  Braces and quotes
are named as characters to keep literals readable. -/

def braceOpen : Char := Char.ofNat 123

def braceClose : Char := Char.ofNat 125

def dquote : Char := Char.ofNat 34

def bslash : Char := Char.ofNat 92

def colonChar : Char := ':'

def commaChar : Char := ','

def escChar (c : Char) : List Char :=
  if c = bslash ∨ c = dquote then [bslash, c] else [c]

def encStr (s : String) : List Char :=
  dquote :: (s.data.map escChar).flatten ++ [dquote]

/-- Scan the body of a JSON string until its closing quote, unescaping. -/
def scanStr (acc : List Char) : List Char → Option (List Char × List Char)
  | [] => none
  | c :: rest =>
    if c = bslash then
      match rest with
      | [] => none
      | d :: rest2 => scanStr (d :: acc) rest2
    else if c = dquote then some (acc.reverse, rest)
    else scanStr (c :: acc) rest

def parseStr (input : List Char) : Option (String × List Char) :=
  match input with
  | [] => none
  | c :: rest =>
    if c = dquote then
      match scanStr [] rest with
      | some (l, r) => some (String.mk l, r)
      | none => none
    else none

def expectChars : List Char → List Char → Option (List Char)
  | [], input => some input
  | _ :: _, [] => none
  | c :: lit, d :: input => if d = c then expectChars lit input else none

def hashFieldLit : List Char :=
  braceOpen :: encStr "last_seen_hash" ++ [colonChar]

def atFieldLit : List Char :=
  commaChar :: encStr "last_seen_at" ++ [colonChar]

def marshalVS (v : VulnerabilityState) : List Char :=
  hashFieldLit ++ encStr v.last_seen_hash ++ atFieldLit ++
    encStr v.last_seen_at ++ [braceClose]

def parseVS (input : List Char) : Option (VulnerabilityState × List Char) :=
  match expectChars hashFieldLit input with
  | none => none
  | some r1 =>
    match parseStr r1 with
    | none => none
    | some (h, r2) =>
      match expectChars atFieldLit r2 with
      | none => none
      | some r3 =>
        match parseStr r3 with
        | none => none
        | some (a, r4) =>
          match expectChars [braceClose] r4 with
          | none => none
          | some r5 => some (⟨h, a⟩, r5)

def marshalEntry (e : String × VulnerabilityState) : List Char :=
  encStr e.1 ++ colonChar :: marshalVS e.2

def marshalBody : List (String × VulnerabilityState) → List Char
  | [] => []
  | [e] => marshalEntry e
  | e :: rest => marshalEntry e ++ commaChar :: marshalBody rest

def marshalStates (m : List (String × VulnerabilityState)) : String :=
  String.mk (braceOpen :: marshalBody m ++ [braceClose])

def parseEntry (input : List Char) :
    Option ((String × VulnerabilityState) × List Char) :=
  match parseStr input with
  | none => none
  | some (k, r1) =>
    match expectChars [colonChar] r1 with
    | none => none
    | some r2 =>
      match parseVS r2 with
      | none => none
      | some (v, r3) => some ((k, v), r3)

def parseEntriesGo : Nat → List Char → Option (List (String × VulnerabilityState))
  | 0, _ => none
  | fuel + 1, input =>
    match parseEntry input with
    | none => none
    | some (e, rest) =>
      match rest with
      | [c] => if c = braceClose then some [e] else none
      | c :: r4 =>
          if c = commaChar then
            match parseEntriesGo fuel r4 with
            | some es => some (e :: es)
            | none => none
          else none
      | [] => none

def unmarshalStates (s : String) : Option (List (String × VulnerabilityState)) :=
  match s.data with
  | [] => none
  | c :: rest =>
    if c = braceOpen then
      match rest with
      | [d] => if d = braceClose then some [] else none
      | _ => parseEntriesGo s.data.length rest
    else none

/-! Section: internal/state/state.go — the vulnerability state store

`time.Now()` is passed in as an opaque rendered string `now`, and the state
file together with the success of `os.WriteFile` is passed explicitly
(`fs : Option String` is the file's content, `none` when the file does not
exist; `writeOk` tells whether the write succeeds). -/

structure StateManager where
  states : StateMap
  statePath : String

/-- state.go ComputeKey: `strings.Join(keyFields, "|")` over the five key
fields, each read from the record's map (absent fields read as `""`). -/
def ComputeKey (record : Record) : String :=
  String.intercalate "|"
    [record "Project Name", record "Tool", record "Scanner Name",
     record "CVE", record "Location"]

/-- state.go ComputeVersionHash: hex-encoded SHA-256 of
`strings.Join(versionFields, "|")` over the five change-indicating fields. -/
def ComputeVersionHash (record : Record) : String :=
  SHA256.sha256hex (String.intercalate "|"
    [record "Status", record "Severity", record "Details",
     record "Additional Info", record "Dismissal Reason"])

/-- state.go ShouldProcess: true when the key is new or the stored hash
differs from the freshly computed hash.  The Go method only takes a read
lock and returns a bool; it is a pure read, which the embedding reflects by
the type (no new `StateMap` is produced). -/
def ShouldProcess (sm : StateManager) (record : Record) : Bool :=
  let key := ComputeKey record
  let hash := ComputeVersionHash record
  match getEntry sm.states key with
  | none => true
  | some st => st.last_seen_hash != hash

/-- The map update performed by UpdateState under the exclusive lock. -/
def UpdateStateMap (states : StateMap) (record : Record) (now : String) : StateMap :=
  setEntry states (ComputeKey record)
    { last_seen_hash := ComputeVersionHash record, last_seen_at := now }

/-- state.go save: no-op without a configured path; otherwise writes the
marshalled map, the write failing when `writeOk` is false.  Returns the new
file content and whether an error was returned. -/
def save (sm : StateManager) (fs : Option String) (writeOk : Bool) :
    Option String × Bool :=
  if sm.statePath = "" then (fs, false)
  else if writeOk then (some (marshalStates sm.states), false)
  else (fs, true)

structure UpdateResult where
  mgr : StateManager
  fs : Option String
  err : Bool

/-- state.go UpdateState: upsert the entry under the lock, then persist via
`save`; the save error, if any, is returned but the in-memory map keeps the
update. -/
def UpdateState (sm : StateManager) (record : Record) (now : String)
    (fs : Option String) (writeOk : Bool) : UpdateResult :=
  let sm2 : StateManager :=
    { sm with states := UpdateStateMap sm.states record now }
  let res := save sm2 fs writeOk
  ⟨sm2, res.1, res.2⟩

/-- state.go load: empty path or missing file yield the empty map; a file
that unmarshals is taken as the map; a malformed file is an error. -/
def load (statePath : String) (fs : Option String) : Except String StateMap :=
  if statePath = "" then .ok []
  else
    match fs with
    | none => .ok []
    | some data =>
        match unmarshalStates data with
        | some m => .ok m
        | none => .error "failed to unmarshal state"

/-- state.go NewStateManager: construct with empty map, then `load`. -/
def NewStateManager (statePath : String) (fs : Option String) :
    Except String StateManager :=
  match load statePath fs with
  | .ok m => .ok { states := m, statePath := statePath }
  | .error e => .error e

/-! Section: record construction in the orchestrator

receiver.go builds `recordMap` by walking the header left to right and
assigning `recordMap[field] = record[i]`; a duplicated header column makes
the later value win.  `recordOfPairs` mirrors that build and
`lookupPairs` reads the resulting Go map through the pair list. -/

def insertPair (m : Record) (k v : String) : Record :=
  fun s => if s = k then v else m s

def recordOfPairs (l : List (String × String)) : Record :=
  l.foldl (fun m kv => insertPair m kv.1 kv.2) (fun _ => "")

/-- The value `recordOfPairs l` holds for a field: the last binding wins,
mirroring a Go map built left to right. -/
def lookupPairs : List (String × String) → String → Option String
  | [], _ => none
  | (k, v) :: rest, s =>
      match lookupPairs rest s with
      | some w => some w
      | none => if k = s then some v else none

/-- The five key-field column names of ComputeKey, in order. -/
def keyFieldNames : List String :=
  ["Project Name", "Tool", "Scanner Name", "CVE", "Location"]

/-- The five version-field column names of ComputeVersionHash, in order. -/
def hashFieldNames : List String :=
  ["Status", "Severity", "Details", "Additional Info", "Dismissal Reason"]

/-! Section: the export wait loops

The remote status endpoint is an oracle `polls : Nat -> PollOutcome` giving
the outcome of the n-th status fetch: a decoded export with some status
string, a Temporary error (network transient or 5xx), or a fatal error.
Time is in whole seconds from the start of the wait.

Three wait loops occur in the sources and they genuinely differ:

* `WaitForExport` (src/unnamed/part_009:217, the variant with its own
  error handling): polls every 5s; a Temporary error is logged and retried;
  `finished` succeeds, `failed` returns an error immediately, an unknown
  status returns an error immediately; on passing the deadline it returns a
  timeout error carrying `time.Since(startTime)`.  Every continuing branch
  sleeps exactly 5s, so the i-th poll happens at time `5*i` and the loop is
  embedded by recursion on a fuel that, at the top-level fuel value, can
  only run out strictly after the deadline — the fuel-exhausted branch
  coincides with the deadline branch there.

* `clientWaitForExport` (src/client.go:205): polls `GetExport` (which
  itself retries a Temporary error up to 3 attempts with 1s, 2s, 3s
  backoff), aborts on any error `GetExport` returns, succeeds on
  `finished`, and otherwise sleeps 10s; on reaching the deadline it
  returns a timeout error naming the configured timeout.  `failed` is not
  special-cased.

* `pollExport` (src/receiver.go:277): a 10s ticker inside a context with
  the export timeout; any polling error is logged and polling continues;
  `finished` succeeds, `failed` errors, `created`/`started` and any
  unrecognized status keep waiting. -/

inductive PollOutcome
  | ok (status : String)
  | tempErr
  | fatalErr
  deriving DecidableEq, Repr

inductive WaitResult
  | success
  | timedOut (elapsed : Nat)
  | exportFailed (elapsed : Nat)
  | fatal
  | unknownStatus (status : String)
  deriving DecidableEq, Repr

/-- The part_009 WaitForExport loop; `i` is the index of the next poll,
which takes place at time `5*i`.  Returns the result together with the
number of status polls performed. -/
def waitGo (polls : Nat → PollOutcome) (timeout : Nat) :
    Nat → Nat → WaitResult × Nat
  | 0, i => (.timedOut (5 * i), i)
  | fuel + 1, i =>
    if 5 * i > timeout then (.timedOut (5 * i), i)
    else
      match polls i with
      | .tempErr => waitGo polls timeout fuel (i + 1)
      | .fatalErr => (.fatal, i + 1)
      | .ok s =>
        if s = "finished" then (.success, i + 1)
        else if s = "failed" then (.exportFailed (5 * i), i + 1)
        else if s = "created" ∨ s = "running" then
          waitGo polls timeout fuel (i + 1)
        else (.unknownStatus s, i + 1)

/-- part_009 WaitForExport.  The fuel `timeout / 5 + 2` exceeds the number
of loop iterations possible before the deadline check fires, and the
fuel-exhausted branch of `waitGo` returns exactly what the deadline check
would, so the embedding agrees with the unbounded Go loop. -/
def WaitForExport (polls : Nat → PollOutcome) (timeout : Nat) :
    WaitResult × Nat :=
  waitGo polls timeout (timeout / 5 + 2) 0

inductive ClientWaitResult
  | success
  | timedOut
  | pollError
  deriving DecidableEq, Repr

/-- src/client.go GetExport: up to 3 attempts of `getExportOnce`; a
non-Temporary error returns at once; a Temporary error sleeps
`1s * (retry+1)` and retries; after the 3rd Temporary failure the wrapped
error is returned.  `j` indexes the attempt stream, `t` is the clock;
returns (outcome, next attempt index, new clock). -/
def clientGetExport (atts : Nat → PollOutcome) (j t : Nat) :
    PollOutcome × Nat × Nat :=
  match atts j with
  | .ok s => (.ok s, j + 1, t)
  | .fatalErr => (.fatalErr, j + 1, t)
  | .tempErr =>
    match atts (j + 1) with
    | .ok s => (.ok s, j + 2, t + 1)
    | .fatalErr => (.fatalErr, j + 2, t + 1)
    | .tempErr =>
      match atts (j + 2) with
      | .ok s => (.ok s, j + 3, t + 3)
      | .fatalErr => (.fatalErr, j + 3, t + 3)
      | .tempErr => (.tempErr, j + 3, t + 6)

/-- src/client.go WaitForExport loop body: while `now < deadline`, call
GetExport, abort on any error, succeed on status "finished", otherwise
sleep 10s.  Returns (result, attempts consumed, final clock). -/
def clientWaitGo (atts : Nat → PollOutcome) (timeout : Nat) :
    Nat → Nat → Nat → ClientWaitResult × Nat × Nat
  | 0, j, t => (.timedOut, j, t)
  | fuel + 1, j, t =>
    if t < timeout then
      match clientGetExport atts j t with
      | (.tempErr, j2, t2) => (.pollError, j2, t2)
      | (.fatalErr, j2, t2) => (.pollError, j2, t2)
      | (.ok s, j2, t2) =>
        if s = "finished" then (.success, j2, t2)
        else clientWaitGo atts timeout fuel j2 (t2 + 10)
    else (.timedOut, j, t)

/-- src/client.go WaitForExport: every continuing iteration advances the
clock by at least 10s, so `timeout / 10 + 2` iterations always reach the
deadline check. -/
def clientWaitForExport (atts : Nat → PollOutcome) (timeout : Nat) :
    ClientWaitResult × Nat × Nat :=
  clientWaitGo atts timeout (timeout / 10 + 2) 0 0

inductive PollExportResult
  | success
  | timedOut
  | exportFailed
  deriving DecidableEq, Repr

/-- src/receiver.go pollExport: the k-th tick of the 10s ticker fires at
time `10*(k+1)`; the surrounding context is cancelled once the export
timeout elapses, which the embedding takes as: the loop times out as soon
as the next tick would fire after `timeout`.  Any polling error is logged
and polling continues; `created`/`started` and unrecognized statuses keep
waiting. -/
def pollExportGo (polls : Nat → PollOutcome) (timeout : Nat) :
    Nat → Nat → PollExportResult × Nat
  | 0, k => (.timedOut, k)
  | fuel + 1, k =>
    if 10 * (k + 1) > timeout then (.timedOut, k)
    else
      match polls k with
      | .tempErr => pollExportGo polls timeout fuel (k + 1)
      | .fatalErr => pollExportGo polls timeout fuel (k + 1)
      | .ok s =>
        if s = "finished" then (.success, k + 1)
        else if s = "failed" then (.exportFailed, k + 1)
        else pollExportGo polls timeout fuel (k + 1)

def pollExport (polls : Nat → PollOutcome) (timeout : Nat) :
    PollExportResult × Nat :=
  pollExportGo polls timeout (timeout / 10 + 2) 0

/-! Section: row processing

Two row loops occur in the sources:

* `processRows` embeds the loop of processExport (src/receiver.go:100,
  rows at lines 124-160): for each CSV row, build the record map, skip the
  row when `ShouldProcess` is false; otherwise hand it to the consumer, and
  on a consumer error log and `continue` — only that row is skipped;
  `UpdateState` runs only after a successful hand-off, and its save error
  is only logged.  The consumer's verdict on the n-th row is the oracle
  `consumeOk`.

* `processCSVRows` embeds the loop of processCSVData
  (src/receiver.go:436, rows at lines 456-480): rows are deduplicated by
  `generateVulnID` against previously processed IDs, and a consumer error
  makes the whole function return that error — the tick aborts and no
  later row is examined. -/

/-- Outcome of the processExport row loop: final manager, final state-file
content, and the rows delivered to the consumer in order. -/
def processRowsGo (consumeOk : Nat → Bool) (now : String) (writeOk : Bool) :
    List Record → Nat → StateManager → Option String →
    StateManager × Option String × List Record
  | [], _, sm, fs => (sm, fs, [])
  | r :: rest, i, sm, fs =>
    if ShouldProcess sm r then
      if consumeOk i then
        let u := UpdateState sm r now fs writeOk
        let res := processRowsGo consumeOk now writeOk rest (i + 1) u.mgr u.fs
        (res.1, res.2.1, r :: res.2.2)
      else processRowsGo consumeOk now writeOk rest (i + 1) sm fs
    else processRowsGo consumeOk now writeOk rest (i + 1) sm fs

def processRows (consumeOk : Nat → Bool) (now : String) (writeOk : Bool)
    (rows : List Record) (sm : StateManager) (fs : Option String) :
    StateManager × Option String × List Record :=
  processRowsGo consumeOk now writeOk rows 0 sm fs

/-- receiver.go generateVulnID: SHA-256 hex of the raw row joined by `|`. -/
def generateVulnID (record : List String) : String :=
  SHA256.sha256hex (String.intercalate "|" record)

/-- The processCSVData row loop; returns the accumulated new vulnerability
IDs, or an error as soon as the consumer rejects a row. -/
def processCSVRows (consumeOk : Nat → Bool) (processedIDs : List String) :
    List (List String) → Nat → List String → Except String (List String)
  | [], _, acc => .ok acc.reverse
  | rec :: rest, i, acc =>
    let vulnID := generateVulnID rec
    if processedIDs.contains vulnID then
      processCSVRows consumeOk processedIDs rest (i + 1) acc
    else if consumeOk i then
      processCSVRows consumeOk processedIDs rest (i + 1) (vulnID :: acc)
    else .error "failed to consume logs"

/-! Section: lemmas about the association-list model of the Go map -/

theorem getEntry_setEntry_self (m : StateMap) (k : String) (v : VulnerabilityState) :
    getEntry (setEntry m k v) k = some v := by
  induction m with
  | nil => simp [setEntry, getEntry]
  | cons e rest ih =>
      obtain ⟨k', v'⟩ := e
      by_cases h : k' = k
      · subst h; simp [setEntry, getEntry]
      · simp [setEntry, getEntry, h, ih]

theorem getEntry_setEntry_other (m : StateMap) (k k2 : String)
    (v : VulnerabilityState) (h : k2 ≠ k) :
    getEntry (setEntry m k v) k2 = getEntry m k2 := by
  induction m with
  | nil => simp [setEntry, getEntry, Ne.symm h]
  | cons e rest ih =>
      obtain ⟨k', v'⟩ := e
      by_cases hk : k' = k
      · subst hk
        simp [setEntry, getEntry, Ne.symm h]
      · by_cases hk2 : k' = k2 <;> simp [setEntry, getEntry, hk, hk2, ih, h]

/-- Number of bindings a key has in the association list; a well-formed Go
map has at most one. -/
def countKey : StateMap → String → Nat
  | [], _ => 0
  | (k, _) :: rest, key => (if k = key then 1 else 0) + countKey rest key

theorem countKey_eq_zero (m : StateMap) (k : String)
    (h : k ∉ m.map Prod.fst) : countKey m k = 0 := by
  induction m with
  | nil => rfl
  | cons e rest ih =>
      obtain ⟨k', v'⟩ := e
      simp only [List.map_cons, List.mem_cons, not_or] at h
      simp [countKey, Ne.symm h.1, ih h.2]

theorem countKey_le_one_of_nodup (m : StateMap) (k : String)
    (h : (m.map Prod.fst).Nodup) : countKey m k ≤ 1 := by
  induction m with
  | nil => simp [countKey]
  | cons e rest ih =>
      obtain ⟨k', v'⟩ := e
      simp only [List.map_cons, List.nodup_cons] at h
      by_cases hk : k' = k
      · subst hk
        have : countKey rest k' = 0 := countKey_eq_zero rest k' h.1
        simp [countKey, this]
      · simp [countKey, hk, ih h.2]

theorem countKey_setEntry (m : StateMap) (k : String) (v : VulnerabilityState)
    (h : countKey m k ≤ 1) : countKey (setEntry m k v) k = 1 := by
  induction m with
  | nil => simp [setEntry, countKey]
  | cons e rest ih =>
      obtain ⟨k', v'⟩ := e
      by_cases hk : k' = k
      · subst hk
        have h2 : countKey rest k' = 0 := by
          simp [countKey] at h
          omega
        simp [setEntry, countKey, h2]
      · have h2 : countKey rest k ≤ 1 := by
          simpa [countKey, hk] using h
        simp [setEntry, countKey, hk, ih h2]

/-! Section: claims C1, C8, C9 about the state store -/

/-- C1: `ShouldProcess` returns true exactly when no entry exists for the
record's IdentityKey or the stored hash differs from the freshly computed
ContentHash, and after a successful (or even unsuccessful) `UpdateState`
a byte-identical repeat of the record is rejected.  `ShouldProcess` is a
pure read by construction: its embedding consumes the state map and
produces only a Bool, exactly as the Go method takes a read lock and
mutates nothing. -/
theorem shouldProcess_iff_new_or_changed (sm : StateManager) (r : Record) :
    (ShouldProcess sm r = true ↔
      getEntry sm.states (ComputeKey r) = none ∨
        ∃ st, getEntry sm.states (ComputeKey r) = some st ∧
          st.last_seen_hash ≠ ComputeVersionHash r)
    ∧ ∀ (now : String) (fs : Option String) (writeOk : Bool),
        ShouldProcess (UpdateState sm r now fs writeOk).mgr r = false := by
  constructor
  · simp only [ShouldProcess]
    cases h : getEntry sm.states (ComputeKey r) with
    | none => simp [h]
    | some st => simp [h, bne_iff_ne]
  · intro now fs writeOk
    simp [ShouldProcess, UpdateState, UpdateStateMap, getEntry_setEntry_self]

/-- C8: updating twice with the same record leaves exactly one entry for
the key, carrying the hash a single update produces (the two runs differ
only in the stored timestamp), and leaves every other key untouched. -/
theorem updateState_idempotent (sm : StateManager) (r : Record)
    (now1 now2 : String) (fs1 fs2 : Option String) (w1 w2 : Bool)
    (h : (sm.states.map Prod.fst).Nodup) :
    getEntry (UpdateState (UpdateState sm r now1 fs1 w1).mgr r now2 fs2 w2).mgr.states
        (ComputeKey r) = some ⟨ComputeVersionHash r, now2⟩
    ∧ (getEntry (UpdateState (UpdateState sm r now1 fs1 w1).mgr r now2 fs2 w2).mgr.states
        (ComputeKey r)).map VulnerabilityState.last_seen_hash =
      (getEntry (UpdateState sm r now1 fs1 w1).mgr.states (ComputeKey r)).map
        VulnerabilityState.last_seen_hash
    ∧ countKey (UpdateState (UpdateState sm r now1 fs1 w1).mgr r now2 fs2 w2).mgr.states
        (ComputeKey r) = 1
    ∧ ∀ k2, k2 ≠ ComputeKey r →
        getEntry (UpdateState (UpdateState sm r now1 fs1 w1).mgr r now2 fs2 w2).mgr.states
            k2 = getEntry sm.states k2 := by
  refine ⟨?_, ?_, ?_, ?_⟩
  · simp [UpdateState, UpdateStateMap, getEntry_setEntry_self]
  · simp [UpdateState, UpdateStateMap, getEntry_setEntry_self]
  · have h1 : countKey sm.states (ComputeKey r) ≤ 1 :=
      countKey_le_one_of_nodup sm.states (ComputeKey r) h
    have h2 : countKey (setEntry sm.states (ComputeKey r)
        ⟨ComputeVersionHash r, now1⟩) (ComputeKey r) = 1 :=
      countKey_setEntry sm.states (ComputeKey r) _ h1
    simp only [UpdateState, UpdateStateMap]
    exact countKey_setEntry _ (ComputeKey r) _ (le_of_eq h2)
  · intro k2 hk2
    simp only [UpdateState, UpdateStateMap]
    rw [getEntry_setEntry_other _ _ _ _ hk2, getEntry_setEntry_other _ _ _ _ hk2]

/-- C8 witness: two updates of the all-empty record on a fresh manager. -/
theorem updateState_idempotent_witness :
    getEntry (UpdateState (UpdateState ⟨[], "s.json"⟩ (fun _ => "") "t1" none true).mgr
        (fun _ => "") "t2" none true).mgr.states (ComputeKey (fun _ => "")) =
      some ⟨ComputeVersionHash (fun _ => ""), "t2"⟩
    ∧ countKey (UpdateState (UpdateState ⟨[], "s.json"⟩ (fun _ => "") "t1" none true).mgr
        (fun _ => "") "t2" none true).mgr.states (ComputeKey (fun _ => "")) = 1
    ∧ getEntry (UpdateState (UpdateState ⟨[], "s.json"⟩ (fun _ => "") "t1" none true).mgr
        (fun _ => "") "t2" none true).mgr.states "other" = getEntry [] "other" :=
  have h := updateState_idempotent ⟨[], "s.json"⟩ (fun _ => "") "t1" "t2"
    none none true true (by simp)
  ⟨h.1, h.2.2.1, h.2.2.2 "other" (by decide)⟩

/-- C9: when the state-file write fails, `UpdateState` reports the error,
the file is left as it was, but the in-memory map already carries the new
hash, so the same record is no longer processed in this process. -/
theorem updateState_persist_failure (sm : StateManager) (r : Record)
    (now : String) (fs : Option String) (h : sm.statePath ≠ "") :
    (UpdateState sm r now fs false).err = true
    ∧ ShouldProcess (UpdateState sm r now fs false).mgr r = false
    ∧ getEntry (UpdateState sm r now fs false).mgr.states (ComputeKey r) =
        some ⟨ComputeVersionHash r, now⟩
    ∧ (UpdateState sm r now fs false).fs = fs := by
  refine ⟨?_, ?_, ?_, ?_⟩ <;>
    simp [UpdateState, UpdateStateMap, save, h, ShouldProcess, getEntry_setEntry_self]

/-- C9 witness: a failing write on a manager with a configured path. -/
theorem updateState_persist_failure_witness :
    ("s.json" ≠ "")
    ∧ (UpdateState ⟨[], "s.json"⟩ (fun _ => "") "t" none false).err = true
    ∧ ShouldProcess (UpdateState ⟨[], "s.json"⟩ (fun _ => "") "t" none false).mgr
        (fun _ => "") = false
    ∧ (UpdateState ⟨[], "s.json"⟩ (fun _ => "") "t" none false).fs = none :=
  have h := updateState_persist_failure ⟨[], "s.json"⟩ (fun _ => "") "t" none (by decide)
  ⟨by decide, h.1, h.2.1, h.2.2.2⟩

/-! Section: claims C10 and C3 about key and hash derivation -/

/-- The ten column names the dedup store reads, with their exact casing. -/
def trackedFieldNames : List String := keyFieldNames ++ hashFieldNames

/-- C10: records that agree on the ten tracked fields have the same
IdentityKey, the same ContentHash, and the same `ShouldProcess` verdict
against every store — no other field of the record influences dedup.  The
agreement hypothesis is phrased as a decidable Boolean check over the list
of tracked names. -/
theorem dedup_noninterference (r1 r2 : Record)
    (h : trackedFieldNames.all (fun f => r1 f == r2 f) = true) :
    ComputeKey r1 = ComputeKey r2
    ∧ ComputeVersionHash r1 = ComputeVersionHash r2
    ∧ ∀ sm : StateManager, ShouldProcess sm r1 = ShouldProcess sm r2 := by
  simp only [List.all_eq_true, beq_iff_eq, trackedFieldNames, keyFieldNames,
    hashFieldNames] at h
  have h1 := h "Project Name" (by simp)
  have h2 := h "Tool" (by simp)
  have h3 := h "Scanner Name" (by simp)
  have h4 := h "CVE" (by simp)
  have h5 := h "Location" (by simp)
  have h6 := h "Status" (by simp)
  have h7 := h "Severity" (by simp)
  have h8 := h "Details" (by simp)
  have h9 := h "Additional Info" (by simp)
  have h10 := h "Dismissal Reason" (by simp)
  have hk : ComputeKey r1 = ComputeKey r2 := by
    simp [ComputeKey, h1, h2, h3, h4, h5]
  have hh : ComputeVersionHash r1 = ComputeVersionHash r2 := by
    simp [ComputeVersionHash, h6, h7, h8, h9, h10]
  exact ⟨hk, hh, fun sm => by simp [ShouldProcess, hk, hh]⟩

/-- C10 witness: two records that differ only in the untracked column
`Title` get identical key, hash, and verdict on the empty store. -/
theorem dedup_noninterference_witness :
    trackedFieldNames.all
        (fun f => (fun s => if s = "Title" then "a" else "v") f ==
          (fun s => if s = "Title" then "b" else "v") f) = true
    ∧ ComputeKey (fun s => if s = "Title" then "a" else "v") =
        ComputeKey (fun s => if s = "Title" then "b" else "v")
    ∧ ShouldProcess ⟨[], ""⟩ (fun s => if s = "Title" then "a" else "v") =
        ShouldProcess ⟨[], ""⟩ (fun s => if s = "Title" then "b" else "v") :=
  have h := dedup_noninterference (fun s => if s = "Title" then "a" else "v")
    (fun s => if s = "Title" then "b" else "v") (by decide)
  ⟨by decide, h.1, h.2.2 ⟨[], ""⟩⟩

/-- C3 counterexample: the key fields are read with Go's case-sensitive map
indexing, so a record whose column is named `project name` instead of
`Project Name` produces a different IdentityKey — the claimed
case-insensitive lookup does not hold. -/
theorem computeKey_case_sensitive_cex :
    ComputeKey (fun s => if s = "Project Name" then "p" else "") ≠
      ComputeKey (fun s => if s = "project name" then "p" else "") := by
  decide

theorem recordOfPairs_lookup (l : List (String × String)) (m : Record) (s : String) :
    (l.foldl (fun m2 kv => insertPair m2 kv.1 kv.2) m) s =
      match lookupPairs l s with
      | some w => w
      | none => m s := by
  induction l generalizing m with
  | nil => simp [lookupPairs]
  | cons e t ih =>
      simp only [List.foldl_cons]
      rw [ih]
      cases hf : lookupPairs t s with
      | some w => simp [lookupPairs, hf]
      | none =>
          by_cases he : e.1 = s
          · simp [lookupPairs, hf, insertPair, he, eq_comm]
          · simp [lookupPairs, hf, insertPair, he, Ne.symm he]

theorem recordOfPairs_eq_lookup (l : List (String × String)) (s : String) :
    recordOfPairs l s = (lookupPairs l s).getD "" := by
  unfold recordOfPairs
  rw [recordOfPairs_lookup]
  cases lookupPairs l s <;> simp

/-- C3 amended: both the key fields and the hash fields are read from the
record by exact, case-sensitive match against the documented column names,
and a column absent from the record contributes the empty string to the
derivation. -/
theorem derivations_exact_case_absent_empty (l : List (String × String)) :
    ComputeKey (recordOfPairs l) =
      String.intercalate "|" (keyFieldNames.map (fun f => (lookupPairs l f).getD ""))
    ∧ ComputeVersionHash (recordOfPairs l) =
      SHA256.sha256hex (String.intercalate "|"
        (hashFieldNames.map (fun f => (lookupPairs l f).getD ""))) := by
  constructor
  · simp [ComputeKey, keyFieldNames, recordOfPairs_eq_lookup]
  · simp [ComputeVersionHash, hashFieldNames, recordOfPairs_eq_lookup]

/-! Section: lemmas about the part_009 wait loop -/

/-- Poll outcomes on which the part_009 wait loop keeps polling: a
Temporary error or an in-progress status. -/
def nonReturning (p : PollOutcome) : Prop :=
  p = .tempErr ∨ p = .ok "created" ∨ p = .ok "running"

theorem waitGo_step (polls : Nat → PollOutcome) (timeout fuel i : Nat)
    (ht : 5 * i ≤ timeout) (hp : nonReturning (polls i)) :
    waitGo polls timeout (fuel + 1) i = waitGo polls timeout fuel (i + 1) := by
  have ht' : ¬ 5 * i > timeout := by omega
  rcases hp with hp | hp | hp <;> simp [waitGo, ht', hp]

theorem waitGo_shift (polls : Nat → PollOutcome) (timeout : Nat) :
    ∀ n fuel i,
      (∀ k, k < n → nonReturning (polls (i + k)) ∧ 5 * (i + k) ≤ timeout) →
      waitGo polls timeout (n + fuel) i = waitGo polls timeout fuel (i + n) := by
  intro n
  induction n with
  | zero => intro fuel i _; simp
  | succ n ih =>
      intro fuel i h
      have h0 := h 0 (Nat.succ_pos n)
      have e1 : n + 1 + fuel = (n + fuel) + 1 := by omega
      rw [e1, waitGo_step polls timeout (n + fuel) i (by simpa using h0.2)
        (by simpa using h0.1)]
      have h2 : ∀ k, k < n →
          nonReturning (polls (i + 1 + k)) ∧ 5 * (i + 1 + k) ≤ timeout := by
        intro k hk
        have hh := h (k + 1) (by omega)
        have e2 : i + (k + 1) = i + 1 + k := by omega
        rw [e2] at hh
        exact hh
      rw [ih fuel (i + 1) h2]
      have e3 : i + 1 + n = i + (n + 1) := by omega
      rw [e3]

theorem waitForExport_run (polls : Nat → PollOutcome) (timeout i : Nat)
    (hprior : ∀ j, j < i → nonReturning (polls j)) (ht : 5 * i ≤ timeout) :
    ∃ fuel, WaitForExport polls timeout = waitGo polls timeout (fuel + 1) i ∧
      ¬ 5 * i > timeout := by
  have hi : i ≤ timeout / 5 := by omega
  have hsplit : timeout / 5 + 2 = i + (timeout / 5 + 1 - i + 1) := by omega
  refine ⟨timeout / 5 + 1 - i, ?_, by omega⟩
  unfold WaitForExport
  rw [hsplit, waitGo_shift polls timeout i (timeout / 5 + 1 - i + 1) 0 ?_]
  · simp
  · intro k hk
    refine ⟨by simpa using hprior k hk, by omega⟩

theorem waitGo_success_requires (polls : Nat → PollOutcome) (timeout : Nat) :
    ∀ fuel i, (waitGo polls timeout fuel i).1 = .success →
      ∃ j, i ≤ j ∧ 5 * j ≤ timeout ∧ polls j = .ok "finished" := by
  intro fuel
  induction fuel with
  | zero => intro i h; simp [waitGo] at h
  | succ fuel ih =>
      intro i h
      by_cases hgt : 5 * i > timeout
      · simp [waitGo, hgt] at h
      · simp only [waitGo, if_neg hgt] at h
        cases hp : polls i with
        | tempErr =>
            rw [hp] at h
            obtain ⟨j, hj1, hj2, hj3⟩ := ih (i + 1) h
            exact ⟨j, by omega, hj2, hj3⟩
        | fatalErr => rw [hp] at h; simp at h
        | ok s =>
            rw [hp] at h
            by_cases h1 : s = "finished"
            · exact ⟨i, Nat.le_refl i, by omega, by rw [hp, h1]⟩
            · by_cases h2 : s = "failed"
              · simp [h1, h2] at h
              · by_cases h3 : s = "created" ∨ s = "running"
                · simp only [if_neg h1, if_neg h2, if_pos h3] at h
                  obtain ⟨j, hj1, hj2, hj3⟩ := ih (i + 1) h
                  exact ⟨j, by omega, hj2, hj3⟩
                · simp [h1, h2, h3] at h

/-! Section: claims C2 and C4 about WaitForExport -/

/-- C2 amended: for the part_009 `WaitForExport` (the variant that inspects
every status), the wait succeeds exactly when some poll observes `finished`
within the timeout; a run whose polls all stay in the in-progress statuses
times out right after the deadline with the elapsed time, strictly greater
than the timeout, in the error; and the first poll that observes `failed`
returns the failure immediately — the poll counter stops at `i + 1`, so no
further status poll is performed.  (The src/client.go `WaitForExport` does
not special-case `failed` and names the configured timeout instead of the
elapsed time; see the counterexample.) -/
theorem waitForExport_terminal_behavior (polls : Nat → PollOutcome) (timeout : Nat) :
    (∀ i, (∀ j, j < i → nonReturning (polls j)) → polls i = .ok "finished" →
        5 * i ≤ timeout → WaitForExport polls timeout = (.success, i + 1))
    ∧ ((∀ j, 5 * j ≤ timeout → polls j ≠ .ok "finished") →
        (WaitForExport polls timeout).1 ≠ .success)
    ∧ ((∀ j, j ≤ timeout / 5 → polls j = .ok "created" ∨ polls j = .ok "running") →
        WaitForExport polls timeout =
          (.timedOut (5 * (timeout / 5 + 1)), timeout / 5 + 1))
    ∧ (∀ i, (∀ j, j < i → nonReturning (polls j)) → polls i = .ok "failed" →
        5 * i ≤ timeout →
        WaitForExport polls timeout = (.exportFailed (5 * i), i + 1)) := by
  refine ⟨?_, ?_, ?_, ?_⟩
  · intro i hprior hfin ht
    obtain ⟨fuel, hrun, hgt⟩ := waitForExport_run polls timeout i hprior ht
    rw [hrun]
    simp [waitGo, hgt, hfin]
  · intro hnofin hsucc
    obtain ⟨j, _, hj2, hj3⟩ :=
      waitGo_success_requires polls timeout (timeout / 5 + 2) 0 hsucc
    exact hnofin j hj2 hj3
  · intro hprog
    unfold WaitForExport
    have hsplit : timeout / 5 + 2 = (timeout / 5 + 1) + 1 := by omega
    rw [hsplit, waitGo_shift polls timeout (timeout / 5 + 1) 1 0 ?_]
    · have hgt : 5 * (0 + (timeout / 5 + 1)) > timeout := by omega
      simp [waitGo, hgt]
      omega
    · intro k hk
      have hp := hprog k (by omega)
      refine ⟨?_, by omega⟩
      simp only [Nat.zero_add]
      rcases hp with hp | hp
      · exact Or.inr (Or.inl hp)
      · exact Or.inr (Or.inr hp)
  · intro i hprior hfail ht
    obtain ⟨fuel, hrun, hgt⟩ := waitForExport_run polls timeout i hprior ht
    rw [hrun]
    simp [waitGo, hgt, hfail]

/-- C2 witness: concrete runs of the part_009 wait loop exercising all four
conjuncts of `waitForExport_terminal_behavior`. -/
theorem waitForExport_terminal_behavior_witness :
    WaitForExport (fun n => if n = 0 then .ok "created" else .ok "finished") 20 =
      (.success, 2)
    ∧ (WaitForExport (fun _ => PollOutcome.tempErr) 7).1 ≠ .success
    ∧ WaitForExport (fun _ => PollOutcome.ok "created") 7 = (.timedOut 10, 2)
    ∧ WaitForExport (fun _ => PollOutcome.ok "failed") 30 = (.exportFailed 0, 1) := by
  refine ⟨?_, ?_, ?_, ?_⟩
  · exact (waitForExport_terminal_behavior _ 20).1 1
      (fun j hj => by
        have hj0 : j = 0 := by omega
        subst hj0
        exact Or.inr (Or.inl rfl))
      (by decide) (by omega)
  · exact (waitForExport_terminal_behavior _ 7).2.1 (fun j _ => by decide)
  · exact (waitForExport_terminal_behavior _ 7).2.2.1 (fun j _ => Or.inl rfl)
  · exact (waitForExport_terminal_behavior _ 30).2.2.2 0 (fun j hj => by omega)
      rfl (by omega)

/-- C2 counterexample: the src/client.go `WaitForExport` does not return a
fatal error on the first poll that observes `failed`: with every poll
answering `failed` and a 25s timeout it performs three status polls and
then returns the timeout result. -/
theorem clientWait_not_fail_fast_cex :
    clientWaitForExport (fun _ => PollOutcome.ok "failed") 25 =
      (.timedOut, 3, 30)
    ∧ (clientWaitForExport (fun _ => PollOutcome.ok "failed") 25).2.1 ≠ 1 := by
  refine ⟨by decide, by decide⟩

/-- C4 amended: in the part_009 `WaitForExport`, a Temporary error from a
single status poll neither aborts the wait nor surfaces the error — the
loop moves on to the next poll after the fixed 5s interval — and this holds
for every number of consecutive Temporary errors within the timeout, after
which a poll reporting `finished` still succeeds.  (src/client.go instead
retries a Temporary error only inside `GetExport`, at most three attempts,
and its wait loop aborts once `GetExport` gives up; see the
counterexample.) -/
theorem waitForExport_tolerates_temp_errors (polls : Nat → PollOutcome) (timeout : Nat) :
    (∀ fuel i, 5 * i ≤ timeout → polls i = .tempErr →
        waitGo polls timeout (fuel + 1) i = waitGo polls timeout fuel (i + 1))
    ∧ ∀ n, (∀ j, j < n → polls j = .tempErr) → polls n = .ok "finished" →
        5 * n ≤ timeout → WaitForExport polls timeout = (.success, n + 1) := by
  constructor
  · intro fuel i ht hp
    exact waitGo_step polls timeout fuel i ht (Or.inl hp)
  · intro n htemp hfin ht
    obtain ⟨fuel, hrun, hgt⟩ := waitForExport_run polls timeout n
      (fun j hj => Or.inl (htemp j hj)) ht
    rw [hrun]
    simp [waitGo, hgt, hfin]

/-- C4 witness: three consecutive Temporary errors, then `finished`, inside
a 15s budget. -/
theorem waitForExport_tolerates_temp_errors_witness :
    waitGo (fun n => if n < 3 then .tempErr else .ok "finished") 15 2 0 =
      waitGo (fun n => if n < 3 then .tempErr else .ok "finished") 15 1 1
    ∧ WaitForExport (fun n => if n < 3 then .tempErr else .ok "finished") 15 =
      (.success, 4) := by
  constructor
  · exact (waitForExport_tolerates_temp_errors _ 15).1 1 0 (by omega) rfl
  · exact (waitForExport_tolerates_temp_errors _ 15).2 3
      (fun j hj => by
        have : j < 3 := hj
        simp [this])
      (by decide) (by omega)

/-- C4 counterexample: with every status attempt failing with a Temporary
error, the src/client.go `WaitForExport` aborts with the poll error after
`GetExport`'s three attempts, 6s into a 100s timeout — it does not keep
retrying until the timeout elapses. -/
theorem clientWait_aborts_on_temp_errors_cex :
    clientWaitForExport (fun _ => PollOutcome.tempErr) 100 = (.pollError, 3, 6)
    ∧ (clientWaitForExport (fun _ => PollOutcome.tempErr) 100).2.2 < 100 := by
  refine ⟨by decide, by decide⟩

/-! Section: claim C5 about unrecognized statuses in the wait loops -/

/-- Poll outcomes on which receiver.go's pollExport keeps polling:
anything but a decoded `finished` or `failed` status. -/
def pollContinuing (p : PollOutcome) : Prop :=
  p ≠ .ok "finished" ∧ p ≠ .ok "failed"

theorem pollExportGo_step (polls : Nat → PollOutcome) (timeout fuel k : Nat)
    (ht : 10 * (k + 1) ≤ timeout) (hp : pollContinuing (polls k)) :
    pollExportGo polls timeout (fuel + 1) k =
      pollExportGo polls timeout fuel (k + 1) := by
  have ht' : ¬ 10 * (k + 1) > timeout := by omega
  cases hpk : polls k with
  | tempErr => simp [pollExportGo, ht', hpk]
  | fatalErr => simp [pollExportGo, ht', hpk]
  | ok s =>
      rw [hpk] at hp
      have h1 : s ≠ "finished" := fun hh => hp.1 (by rw [hh])
      have h2 : s ≠ "failed" := fun hh => hp.2 (by rw [hh])
      simp [pollExportGo, ht', hpk, h1, h2]

theorem pollExportGo_shift (polls : Nat → PollOutcome) (timeout : Nat) :
    ∀ n fuel k,
      (∀ m2, m2 < n →
        pollContinuing (polls (k + m2)) ∧ 10 * (k + m2 + 1) ≤ timeout) →
      pollExportGo polls timeout (n + fuel) k =
        pollExportGo polls timeout fuel (k + n) := by
  intro n
  induction n with
  | zero => intro fuel k _; simp
  | succ n ih =>
      intro fuel k h
      have h0 := h 0 (Nat.succ_pos n)
      have e1 : n + 1 + fuel = (n + fuel) + 1 := by omega
      rw [e1, pollExportGo_step polls timeout (n + fuel) k (by simpa using h0.2)
        (by simpa using h0.1)]
      have h2 : ∀ m2, m2 < n →
          pollContinuing (polls (k + 1 + m2)) ∧ 10 * (k + 1 + m2 + 1) ≤ timeout := by
        intro m2 hm
        have hh := h (m2 + 1) (by omega)
        have e2 : k + (m2 + 1) = k + 1 + m2 := by omega
        rw [e2] at hh
        exact hh
      rw [ih fuel (k + 1) h2]
      have e3 : k + 1 + n = k + (n + 1) := by omega
      rw [e3]

/-- C5 amended: in receiver.go's `pollExport` wait loop, a poll that
returns a status outside the recognized vocabulary is treated as still
waiting — the loop returns nothing and simply proceeds to the next poll
(first conjunct), and a later poll observing `finished` is authoritative
and yields success (second conjunct).  (The part_009 `WaitForExport`
instead returns an "unknown export status" error at once; see the
counterexample.  src/client.go's variant also keeps waiting, since it
inspects nothing but `finished`.) -/
theorem pollExport_unknown_status_keeps_waiting (polls : Nat → PollOutcome)
    (timeout : Nat) :
    (∀ fuel k s, polls k = .ok s → s ≠ "finished" → s ≠ "failed" →
        10 * (k + 1) ≤ timeout →
        pollExportGo polls timeout (fuel + 1) k =
          pollExportGo polls timeout fuel (k + 1))
    ∧ ∀ i, (∀ j, j < i → polls j ≠ .ok "finished" ∧ polls j ≠ .ok "failed") →
        polls i = .ok "finished" → 10 * (i + 1) ≤ timeout →
        pollExport polls timeout = (.success, i + 1) := by
  constructor
  · intro fuel k s hpk h1 h2 ht
    refine pollExportGo_step polls timeout fuel k ht ?_
    rw [hpk]
    exact ⟨by simpa using h1, by simpa using h2⟩
  · intro i hprior hfin ht
    have hi : i + 1 ≤ timeout / 10 := by omega
    have hsplit : timeout / 10 + 2 = i + (timeout / 10 + 2 - i) := by omega
    have hfuel : timeout / 10 + 2 - i = (timeout / 10 + 1 - i) + 1 := by omega
    unfold pollExport
    rw [hsplit, pollExportGo_shift polls timeout i (timeout / 10 + 2 - i) 0 ?_]
    · have ht' : ¬ 10 * (0 + i + 1) > timeout := by omega
      rw [hfuel]
      simp [pollExportGo, ht', hfin]
      omega
    · intro m2 hm
      exact ⟨by simpa using hprior m2 hm, by omega⟩

/-- C5 witness: an unrecognized status on the first poll, `finished` on the
second. -/
theorem pollExport_unknown_status_keeps_waiting_witness :
    pollExportGo (fun k => if k = 0 then .ok "weird" else .ok "finished") 20 2 0 =
      pollExportGo (fun k => if k = 0 then .ok "weird" else .ok "finished") 20 1 1
    ∧ pollExport (fun k => if k = 0 then .ok "weird" else .ok "finished") 20 =
      (.success, 2) := by
  constructor
  · exact (pollExport_unknown_status_keeps_waiting _ 20).1 1 0 "weird" rfl
      (by decide) (by decide) (by omega)
  · exact (pollExport_unknown_status_keeps_waiting _ 20).2 1
      (fun j hj => by
        have hj0 : j = 0 := by omega
        subst hj0
        exact ⟨by decide, by decide⟩)
      rfl (by omega)

/-- C5 counterexample: the part_009 `WaitForExport` returns an "unknown
export status" error on the very first unrecognized status instead of
continuing to poll. -/
theorem waitForExport_unknown_status_errors_cex :
    WaitForExport (fun _ => PollOutcome.ok "weird") 100 =
      (.unknownStatus "weird", 1) := by
  decide

/-! Section: claim C6 about row processing -/

/-- C6 amended: in processExport's row loop (src/receiver.go:100), a
consumer error on one row skips exactly that row — the loop continues on
the remaining rows with the state unchanged (first conjunct) — and the
final state map is precisely the fold of `UpdateState`'s map update over
the rows that were actually delivered, so `UpdateState` runs for a row
exactly when its hand-off succeeded (second conjunct).  (In
processCSVData, src/receiver.go:436, a consumer error instead aborts the
whole tick; see the counterexample.) -/
theorem processRows_consumer_error_skips_row (consumeOk : Nat → Bool)
    (now : String) (writeOk : Bool) :
    (∀ (r : Record) (rest : List Record) (i : Nat) (sm : StateManager)
        (fs : Option String),
        ShouldProcess sm r = true → consumeOk i = false →
        processRowsGo consumeOk now writeOk (r :: rest) i sm fs =
          processRowsGo consumeOk now writeOk rest (i + 1) sm fs)
    ∧ ∀ (rows : List Record) (i : Nat) (sm : StateManager) (fs : Option String),
        (processRowsGo consumeOk now writeOk rows i sm fs).1.states =
          (processRowsGo consumeOk now writeOk rows i sm fs).2.2.foldl
            (fun st r => UpdateStateMap st r now) sm.states := by
  constructor
  · intro r rest i sm fs hsp hc
    simp [processRowsGo, hsp, hc]
  · intro rows
    induction rows with
    | nil => intro i sm fs; simp [processRowsGo]
    | cons r rest ih =>
        intro i sm fs
        by_cases hsp : ShouldProcess sm r = true
        · by_cases hc : consumeOk i = true
          · have hu : (UpdateState sm r now fs writeOk).mgr.states =
                UpdateStateMap sm.states r now := rfl
            simp only [processRowsGo, hsp, hc, if_true, List.foldl_cons]
            rw [ih (i + 1) (UpdateState sm r now fs writeOk).mgr
              (UpdateState sm r now fs writeOk).fs, hu]
          · simp only [Bool.not_eq_true] at hc
            simp [processRowsGo, hsp, hc, ih]
        · simp only [Bool.not_eq_true] at hsp
          simp [processRowsGo, hsp, ih]

/-- C6 witness: two rows on an empty store with a consumer that rejects
the first row and accepts later ones. -/
theorem processRows_consumer_error_skips_row_witness :
    processRowsGo (fun i => i != 0) "t" true
        [fun _ => ""] 0 ⟨[], "s.json"⟩ none =
      processRowsGo (fun i => i != 0) "t" true [] 1 ⟨[], "s.json"⟩ none
    ∧ (processRowsGo (fun i => i != 0) "t" true
        [fun _ => ""] 0 ⟨[], "s.json"⟩ none).1.states =
      (processRowsGo (fun i => i != 0) "t" true
        [fun _ => ""] 0 ⟨[], "s.json"⟩ none).2.2.foldl
        (fun st r => UpdateStateMap st r "t") ([] : StateMap) := by
  constructor
  · exact (processRows_consumer_error_skips_row (fun i => i != 0) "t" true).1
      (fun _ => "") [] 0 ⟨[], "s.json"⟩ none (by decide) (by decide)
  · exact (processRows_consumer_error_skips_row (fun i => i != 0) "t" true).2
      [fun _ => ""] 0 ⟨[], "s.json"⟩ none

/-- C6 counterexample: the processCSVData row loop returns the consumer's
error for the whole tick as soon as one row's hand-off fails — with the
consumer rejecting only row 0 of two fresh rows, the function aborts and
the second row is never examined, instead of skipping row 0 and
continuing. -/
theorem processCSVData_consumer_error_aborts_cex :
    processCSVRows (fun i => i != 0) [] [["a"], ["b"]] 0 [] =
      .error "failed to consume logs" := by
  rfl

/-! Section: round-trip lemmas for the state-map codec -/

theorem scanStr_round (l : List Char) :
    ∀ (acc rest : List Char),
      scanStr acc ((l.map escChar).flatten ++ dquote :: rest) =
        some (acc.reverse ++ l, rest) := by
  induction l with
  | nil =>
      intro acc rest
      have h1 : ¬ dquote = bslash := by decide
      rw [List.map_nil, List.flatten_nil, List.nil_append, scanStr.eq_def]
      simp [h1]
  | cons c t ih =>
      intro acc rest
      by_cases hc : c = bslash ∨ c = dquote
      · have he : escChar c = [bslash, c] := by simp [escChar, hc]
        simp only [List.map_cons, List.flatten_cons, he, List.cons_append,
          List.nil_append]
        rw [scanStr.eq_def]
        simp only [if_pos rfl]
        rw [ih (c :: acc) rest]
        simp
      · push_neg at hc
        have he : escChar c = [c] := by simp [escChar, hc.1, hc.2]
        simp only [List.map_cons, List.flatten_cons, he, List.cons_append,
          List.nil_append]
        rw [scanStr.eq_def]
        simp only [if_neg hc.1, if_neg hc.2]
        rw [ih (c :: acc) rest]
        simp

theorem parseStr_round (s : String) (rest : List Char) :
    parseStr (encStr s ++ rest) = some (s, rest) := by
  have e : encStr s ++ rest =
      dquote :: ((s.data.map escChar).flatten ++ dquote :: rest) := by
    simp [encStr, List.append_assoc]
  rw [e, parseStr, if_pos rfl, scanStr_round]
  rfl

theorem expectChars_round (lit : List Char) :
    ∀ rest, expectChars lit (lit ++ rest) = some rest := by
  induction lit with
  | nil => intro rest; rfl
  | cons c t ih => intro rest; simp [expectChars, ih]

theorem parseVS_round (v : VulnerabilityState) (rest : List Char) :
    parseVS (marshalVS v ++ rest) = some (v, rest) := by
  have e : marshalVS v ++ rest =
      hashFieldLit ++ (encStr v.last_seen_hash ++ (atFieldLit ++
        (encStr v.last_seen_at ++ ([braceClose] ++ rest)))) := by
    simp [marshalVS, List.append_assoc]
  rw [e]
  simp only [parseVS, expectChars_round, parseStr_round]

theorem parseEntry_round (e : String × VulnerabilityState) (rest : List Char) :
    parseEntry (marshalEntry e ++ rest) = some (e, rest) := by
  have he : marshalEntry e ++ rest =
      encStr e.1 ++ ([colonChar] ++ (marshalVS e.2 ++ rest)) := by
    simp [marshalEntry, List.append_assoc]
  rw [he]
  simp only [parseEntry, parseStr_round, expectChars_round, parseVS_round]

theorem marshalEntry_head (x : String × VulnerabilityState) :
    marshalEntry x = dquote :: ((x.1.data.map escChar).flatten ++ [dquote] ++
      colonChar :: marshalVS x.2) := by
  simp [marshalEntry, encStr, List.append_assoc]

theorem marshalBody_head (y : String × VulnerabilityState)
    (tl : List (String × VulnerabilityState)) :
    ∃ t, marshalBody (y :: tl) = dquote :: t := by
  cases tl with
  | nil =>
      refine ⟨(y.1.data.map escChar).flatten ++ [dquote] ++
        colonChar :: marshalVS y.2, ?_⟩
      simp only [marshalBody]
      rw [marshalEntry_head]
  | cons z tz =>
      refine ⟨(y.1.data.map escChar).flatten ++ [dquote] ++
        colonChar :: marshalVS y.2 ++ commaChar :: marshalBody (z :: tz), ?_⟩
      simp only [marshalBody]
      rw [marshalEntry_head]
      simp [List.append_assoc]

theorem marshalBody_length (l : List (String × VulnerabilityState)) :
    l.length ≤ (marshalBody l).length := by
  induction l with
  | nil => simp [marshalBody]
  | cons x tl ih =>
      cases tl with
      | nil =>
          simp only [marshalBody, List.length_singleton]
          rw [marshalEntry_head]
          simp
      | cons y tz =>
          have h1 : 1 ≤ (marshalEntry x).length := by
            rw [marshalEntry_head]; simp
          simp only [marshalBody, List.length_cons, List.length_append] at *
          omega

theorem parseEntriesGo_round :
    ∀ (l : List (String × VulnerabilityState)) (x : String × VulnerabilityState)
      (fuel : Nat), l.length < fuel →
      parseEntriesGo fuel (marshalBody (x :: l) ++ [braceClose]) =
        some (x :: l) := by
  intro l
  induction l with
  | nil =>
      intro x fuel hf
      obtain ⟨f, rfl⟩ : ∃ f, fuel = f + 1 := ⟨fuel - 1, by omega⟩
      simp only [marshalBody]
      rw [parseEntriesGo, parseEntry_round x [braceClose]]
      simp
  | cons y tl ih =>
      intro x fuel hf
      obtain ⟨f, rfl⟩ : ∃ f, fuel = f + 1 := ⟨fuel - 1, by omega⟩
      obtain ⟨T, hT⟩ := marshalBody_head y tl
      have hb : marshalBody (x :: y :: tl) ++ [braceClose] =
          marshalEntry x ++
            (commaChar :: (marshalBody (y :: tl) ++ [braceClose])) := by
        simp [marshalBody, List.append_assoc]
      rw [hb, parseEntriesGo, parseEntry_round x
        (commaChar :: (marshalBody (y :: tl) ++ [braceClose]))]
      rw [hT]
      have hcomma : commaChar = braceClose ↔ False := by
        constructor
        · intro hcb; exact absurd hcb (by decide)
        · intro hcb; exact hcb.elim
      simp only [List.cons_append]
      rw [show parseEntriesGo f (dquote :: (T ++ [braceClose])) =
        parseEntriesGo f (marshalBody (y :: tl) ++ [braceClose]) from by
          rw [hT]; rfl]
      rw [ih y f (by simpa using Nat.lt_of_succ_lt_succ hf)]
      simp

theorem unmarshal_marshal (m : List (String × VulnerabilityState)) :
    unmarshalStates (marshalStates m) = some m := by
  cases m with
  | nil => rfl
  | cons x l =>
      obtain ⟨T, hT⟩ := marshalBody_head x l
      rcases hTT : T ++ [braceClose] with _ | ⟨d, r5⟩
      · exact absurd hTT (by simp)
      · have hdata : (marshalStates (x :: l)).data =
            braceOpen :: dquote :: d :: r5 := by
          show braceOpen :: (marshalBody (x :: l) ++ [braceClose]) = _
          rw [hT, List.cons_append, hTT]
        have hback : dquote :: d :: r5 = marshalBody (x :: l) ++ [braceClose] := by
          rw [hT, List.cons_append, hTT]
        rw [unmarshalStates, hdata]
        simp only [if_pos rfl]
        rw [show parseEntriesGo (braceOpen :: dquote :: d :: r5).length
              (dquote :: d :: r5) =
            parseEntriesGo (braceOpen :: dquote :: d :: r5).length
              (marshalBody (x :: l) ++ [braceClose]) from by rw [← hback]]
        refine parseEntriesGo_round l x _ ?_
        have e1 : T.length = r5.length := by
          have := congrArg List.length hTT
          simpa using this
        have e2 : (marshalBody (x :: l)).length = r5.length + 1 := by
          rw [hT]
          simp [e1]
        have h1 := marshalBody_length (x :: l)
        simp only [List.length_cons] at *
        omega

/-! Section: claim C7 — persistence round-trip -/

/-- C7: with a configured state path, writing the store to the file via
`save` and constructing a fresh `StateManager` from that file succeeds and
reproduces the state map exactly, so the new store's `ShouldProcess`
verdict agrees with the original's on every record over a previously seen
key (indeed on every record). -/
theorem state_roundtrip (sm : StateManager) (fs : Option String)
    (h : sm.statePath ≠ "") :
    NewStateManager sm.statePath (save sm fs true).1 =
      .ok ⟨sm.states, sm.statePath⟩
    ∧ ∀ sm2, NewStateManager sm.statePath (save sm fs true).1 = .ok sm2 →
        ∀ r : Record, getEntry sm.states (ComputeKey r) ≠ none →
          ShouldProcess sm2 r = ShouldProcess sm r := by
  have hsave : (save sm fs true).1 = some (marshalStates sm.states) := by
    simp [save, h]
  have hnew : NewStateManager sm.statePath (save sm fs true).1 =
      .ok ⟨sm.states, sm.statePath⟩ := by
    rw [hsave]
    simp [NewStateManager, load, h, unmarshal_marshal]
  refine ⟨hnew, ?_⟩
  intro sm2 hsm2 r _
  rw [hnew] at hsm2
  obtain rfl : (⟨sm.states, sm.statePath⟩ : StateManager) = sm2 := by
    simpa using hsm2
  simp [ShouldProcess]

/-- C7 witness: a one-entry store whose key is the IdentityKey of the
all-empty record survives the file round-trip. -/
theorem state_roundtrip_witness :
    ("s.json" ≠ "")
    ∧ NewStateManager "s.json"
        (save ⟨[("||||", ⟨"h", "t"⟩)], "s.json"⟩ none true).1 =
      .ok ⟨[("||||", ⟨"h", "t"⟩)], "s.json"⟩
    ∧ ShouldProcess ⟨[("||||", ⟨"h", "t"⟩)], "s.json"⟩ (fun _ => "") =
        ShouldProcess ⟨[("||||", ⟨"h", "t"⟩)], "s.json"⟩ (fun _ => "") := by
  have h := state_roundtrip ⟨[("||||", ⟨"h", "t"⟩)], "s.json"⟩ none (by decide)
  exact ⟨by decide, h.1, h.2 _ h.1 (fun _ => "") (by decide)⟩

end GVR
